import Mathlib

/-!
Verification development for the LAMP primer hairpin detector and debugger.

The core engine (reverse complement, hairpin scanning, composite-primer
splitting, binding-position resolution, cross-dimer detection, orchestrator)
is embedded shallowly: DNA sequences are lists of characters, JavaScript
strings' `slice` / `indexOf` are modelled with `List.take` / `List.drop`
and an explicit first-occurrence search, and the `for` loops of the source
become structurally recursive functions whose fuel counts the remaining
loop iterations exactly.
-/

namespace Lamp

/-- JavaScript `toUpperCase` on one ASCII character. -/
def upc (c : Char) : Char :=
  if 'a' ≤ c ∧ c ≤ 'z' then Char.ofNat (c.toNat - 32) else c

/-- Complement map of `revcomp`: A↔T, C↔G, any other character unchanged. -/
def complBase (c : Char) : Char :=
  if c = 'A' then 'T'
  else if c = 'T' then 'A'
  else if c = 'C' then 'G'
  else if c = 'G' then 'C'
  else c

/-- `revcomp` from hairpin.js: reverse the sequence, then complement each base. -/
def revcomp (s : List Char) : List Char :=
  s.reverse.map complBase

/-- JavaScript `s.slice(-k)` for `k ≥ 1`: the last `k` characters
(the whole list when `k` exceeds its length). -/
def takeLast (s : List Char) (k : Nat) : List Char :=
  s.drop (s.length - k)

/-- Does `pat` occur at the very start of `s`?  (Boolean prefix test.) -/
def patAt : List Char → List Char → Bool
  | [], _ => true
  | _ :: _, [] => false
  | a :: as, b :: bs => a = b && patAt as bs

/-- JavaScript `s.indexOf(pat)`: index of the first occurrence of `pat`
inside `s`, `none` when absent (`-1` in the source). -/
def strIndexOf (s pat : List Char) : Option Nat :=
  match s with
  | [] => if patAt pat [] then some 0 else none
  | c :: t => if patAt pat (c :: t) then some 0 else (strIndexOf t pat).map (· + 1)

/-- Result record of `checkHairpin3Prime`. -/
structure Hairpin3 where
  type : List Char
  stemSeq : List Char
  stemRC : List Char
  stemLength : Nat
  loopLength : Nat
  pos3PrimeStart : Nat
  pos3PrimeEnd : Nat
  posUpstreamStart : Nat
  posUpstreamEnd : Nat
deriving DecidableEq

/-- Result record of `checkHairpin5Prime`. -/
structure Hairpin5 where
  type : List Char
  stemSeq : List Char
  stemRC : List Char
  stemLength : Nat
  loopLength : Nat
  pos5PrimeStart : Nat
  pos5PrimeEnd : Nat
  posDownstreamStart : Nat
  posDownstreamEnd : Nat
deriving DecidableEq

/-- Inner loop of `checkHairpin3Prime`: `for (loop = 3; loop <= maxLoop; loop++)`.
`fuel` counts the remaining iterations (`maxLoop - loop + 1` at entry); the
source breaks as soon as `start = searchRegion.length - stemLen - loop` would
be negative.  Returns the `(start, loop)` pair of the first anchored match. -/
def loopScan3 (sr rcStem : List Char) (stemLen : Nat) : Nat → Nat → Option (Nat × Nat)
  | _, 0 => none
  | lp, fuel + 1 =>
    if sr.length < stemLen + lp then none
    else
      let start := sr.length - stemLen - lp
      if (sr.drop start).take stemLen = rcStem then some (start, lp)
      else loopScan3 sr rcStem stemLen (lp + 1) fuel

/-- Outer loop of `checkHairpin3Prime`: stem length descending from `maxStem`
to `minStem`; the stem is the 3' tail of the scan region and the upstream
region (scan region minus the stem) is searched at each loop length. -/
def stemScan3 (region : List Char) (scanStart n minStem maxLoop : Nat) :
    Nat → Option Hairpin3
  | 0 => none
  | m + 1 =>
    if m + 1 < minStem then none
    else
      let stem := takeLast region (m + 1)
      let rcStem := revcomp stem
      let sr := region.take (region.length - (m + 1))
      match loopScan3 sr rcStem (m + 1) 3 (maxLoop - 2) with
      | some (start, lp) =>
        some ⟨"3prime".toList, stem, rcStem, m + 1, lp,
              n - (m + 1), n, scanStart + start, scanStart + start + (m + 1)⟩
      | none => stemScan3 region scanStart n minStem maxLoop m

/-- `checkHairpin3Prime(primer, maxStem, minStem, maxLoop)` from hairpin.js
(defaults `6, 2, 12`): uppercase, restrict to the last 15 characters when the
sequence is longer than 15, then scan stems descending. -/
def checkHairpin3Prime (primer : List Char) (maxStem minStem maxLoop : Nat) :
    Option Hairpin3 :=
  let p := primer.map upc
  let n := p.length
  let region := if 15 < n then p.drop (n - 15) else p
  let scanStart := if 15 < n then n - 15 else 0
  stemScan3 region scanStart n minStem maxLoop maxStem

/-- Inner loop of `checkHairpin5Prime`: candidate downstream window starts at
`stemLen + loop`; the source breaks once the window end passes the region. -/
def loopScan5 (region rcStem : List Char) (stemLen : Nat) : Nat → Nat → Option (Nat × Nat)
  | _, 0 => none
  | lp, fuel + 1 =>
    if region.length < stemLen + lp + stemLen then none
    else
      let start := stemLen + lp
      if (region.drop start).take stemLen = rcStem then some (start, lp)
      else loopScan5 region rcStem stemLen (lp + 1) fuel

/-- Outer loop of `checkHairpin5Prime`: the stem is the 5' head of the scan
region. -/
def stemScan5 (region : List Char) (minStem maxLoop : Nat) : Nat → Option Hairpin5
  | 0 => none
  | m + 1 =>
    if m + 1 < minStem then none
    else
      let stem := region.take (m + 1)
      let rcStem := revcomp stem
      match loopScan5 region rcStem (m + 1) 3 (maxLoop - 2) with
      | some (start, lp) =>
        some ⟨"5prime".toList, stem, rcStem, m + 1, lp,
              0, m + 1, start, start + (m + 1)⟩
      | none => stemScan5 region minStem maxLoop m

/-- `checkHairpin5Prime(primer, maxStem, minStem, maxLoop)` from hairpin.js:
uppercase, restrict to the first 15 characters when longer than 15, scan
stems descending.  All returned positions are window-relative, which for the
5' window coincides with full-sequence coordinates. -/
def checkHairpin5Prime (primer : List Char) (maxStem minStem maxLoop : Nat) :
    Option Hairpin5 :=
  let p := primer.map upc
  let region := if 15 < p.length then p.take 15 else p
  stemScan5 region minStem maxLoop maxStem

/-- Result record of a successful `splitInnerPrimer` (the `found: false` case
is modelled as `none`). -/
structure SplitResult where
  left : List Char
  right : List Char
  leftType : List Char
  rightType : List Char
  leftStart : Nat
  leftEnd : Nat
  rightStart : Nat
  rightEnd : Nat
deriving DecidableEq

/-- One iteration body of the `splitInnerPrimer` loop at a fixed candidate
right-half length: first the forward-right hypothesis (right part forward on
the gene and the left part's reverse complement on the gene), then the
swapped hypothesis (left part forward, right part's reverse complement on
the gene); on the swapped branch the returned `left`/`right` fields are
swapped exactly as in the source. -/
def splitTry (seqU gene : List Char) (isFIP : Bool) (rightLen : Nat) : Option SplitResult :=
  let leftPart := seqU.take (seqU.length - rightLen)
  let rightPart := seqU.drop (seqU.length - rightLen)
  let lType := if isFIP then "F1c".toList else "B1c".toList
  let rType := if isFIP then "F2".toList else "B2".toList
  let b1 : Option SplitResult :=
    match strIndexOf gene rightPart, strIndexOf gene (revcomp leftPart) with
    | some rightIdx, some leftIdx =>
      some ⟨leftPart, rightPart, lType, rType,
            leftIdx, leftIdx + leftPart.length, rightIdx, rightIdx + rightPart.length⟩
    | _, _ => none
  match b1 with
  | some r => some r
  | none =>
    match strIndexOf gene leftPart, strIndexOf gene (revcomp rightPart) with
    | some leftIdx2, some rightIdx2 =>
      some ⟨rightPart, leftPart, lType, rType,
            rightIdx2, rightIdx2 + rightPart.length, leftIdx2, leftIdx2 + leftPart.length⟩
    | _, _ => none

/-- The `for (rightLen = 15; rightLen <= 35 && rightLen < seq.length - 10 ...)`
loop of `splitInnerPrimer`; `fuel` counts the remaining candidate lengths. -/
def splitFrom (seqU gene : List Char) (isFIP : Bool) : Nat → Nat → Option SplitResult
  | _, 0 => none
  | rightLen, fuel + 1 =>
    if rightLen ≤ 35 ∧ rightLen + 10 < seqU.length then
      match splitTry seqU gene isFIP rightLen with
      | some r => some r
      | none => splitFrom seqU gene isFIP (rightLen + 1) fuel
    else none

/-- `splitInnerPrimer(innerPrimer, gene, isFIP)` from hairpin.js: uppercase
the composite sequence, then try candidate right-half lengths ascending from
15 (at most 21 candidates, 15–35). -/
def splitInnerPrimer (innerPrimer gene : List Char) (isFIP : Bool) : Option SplitResult :=
  splitFrom (innerPrimer.map upc) gene isFIP 15 21

/-- One cross-dimer record produced by `checkDimer`. -/
structure DimerRec where
  primer1 : List Char
  primer2 : List Char
  primer1_3prime : List Char
  primer1_3prime_rc : List Char
  bindingPos : Nat
  matchLength : Nat
  direction : List Char
deriving DecidableEq

/-- One direction of `checkDimer` (`for (matchLen = 8; matchLen >= minMatch;
matchLen--)`): the terminal `matchLen` characters of `aSeq` are taken only
when `aSeq` is long enough, their reverse complement searched in `bSeq`;
the first (longest) hit wins. -/
def dimerDir (nA nB aSeq bSeq : List Char) (minMatch : Nat) (dirTag : List Char) :
    Nat → Option DimerRec
  | 0 => none
  | m + 1 =>
    if m + 1 < minMatch then none
    else if m + 1 ≤ aSeq.length then
      let tl := takeLast aSeq (m + 1)
      let rc := revcomp tl
      match strIndexOf bSeq rc with
      | some idx => some ⟨nA, nB, tl, rc, idx, m + 1, dirTag⟩
      | none => dimerDir nA nB aSeq bSeq minMatch dirTag m
    else dimerDir nA nB aSeq bSeq minMatch dirTag m

/-- `checkDimer(p1Name, p1Seq, p2Name, p2Seq, minMatch)` from the source:
uppercase both sequences, check each direction independently, and return the
(at most two) records in source order. -/
def checkDimer (p1Name p1Seq p2Name p2Seq : List Char) (minMatch : Nat) : List DimerRec :=
  let s1 := p1Seq.map upc
  let s2 := p2Seq.map upc
  (dimerDir p1Name p2Name s1 s2 minMatch ("p1_to_p2".toList) 8).toList ++
  (dimerDir p2Name p1Name s2 s1 minMatch ("p2_to_p1".toList) 8).toList

/-- A primer record as mutated by `attachPrimerPositions`.  Fields a
JavaScript object may simply not have yet are `Option`; in particular
`hairpin3 = none` means the field was never written, while
`hairpin3 = some none` means it was written with a null (no-hairpin)
result. -/
structure Primer where
  name : List Char
  seq : List Char
  isInner : Option Bool
  left : Option (List Char)
  right : Option (List Char)
  leftType : Option (List Char)
  rightType : Option (List Char)
  leftStart : Option Nat
  leftEnd : Option Nat
  rightStart : Option Nat
  rightEnd : Option Nat
  start : Option Int
  end_ : Option Int
  orientation : Option (List Char)
  hairpin3 : Option (Option Hairpin3)
  hairpin5 : Option (Option Hairpin5)
  hasHairpin : Option Bool
deriving DecidableEq

/-- `checkAllDimers(primers)`: every unordered pair `(i, j)` with `i < j` in
input order, each checked with the default `minMatch = 3` on the full current
sequences. -/
def checkAllDimers : List Primer → List DimerRec
  | [] => []
  | p :: rest =>
    (rest.map fun q => checkDimer p.name p.seq q.name q.seq 3).flatten ++ checkAllDimers rest

/-- The FIP/BIP arm of the `attachPrimerPositions` loop body: on a
successful split the split fields and hairpin fields are written; on failure
only `isInner`, `orientation` and the sentinel `start`/`end` are. -/
def processInner (gene : List Char) (p : Primer) (isFIP : Bool) : Primer :=
  match splitInnerPrimer p.seq gene isFIP with
  | some s =>
    { p with
      isInner := some true
      left := some s.left
      right := some s.right
      leftType := some s.leftType
      rightType := some s.rightType
      leftStart := some s.leftStart
      leftEnd := some s.leftEnd
      rightStart := some s.rightStart
      rightEnd := some s.rightEnd
      hairpin3 := some (checkHairpin3Prime p.seq 6 2 12)
      hairpin5 := some (checkHairpin5Prime p.seq 6 2 12)
      hasHairpin := some ((checkHairpin3Prime p.seq 6 2 12).isSome
                          || (checkHairpin5Prime p.seq 6 2 12).isSome) }
  | none =>
    { p with
      isInner := some true
      orientation := some ("not split".toList)
      start := some (-1)
      end_ := some (-1) }

/-- The regular-primer binding resolution of `attachPrimerPositions`:
forward first occurrence, else reverse-complement first occurrence, else the
not-found sentinel. -/
def locateSimple (gene : List Char) (p : Primer) : Primer :=
  match strIndexOf gene p.seq with
  | some i =>
    { p with
      start := some (i : Int)
      end_ := some ((i : Int) + p.seq.length)
      orientation := some ("forward".toList) }
  | none =>
    match strIndexOf gene (revcomp p.seq) with
    | some j =>
      { p with
        start := some (j : Int)
        end_ := some ((j : Int) + p.seq.length)
        orientation := some ("reverse (RC)".toList) }
    | none =>
      { p with
        start := some (-1)
        end_ := some (-1)
        orientation := some ("not found".toList) }

/-- The regular-primer arm of the `attachPrimerPositions` loop body: binding
position and orientation from `locateSimple`, then the hairpin fields from
the full sequence. -/
def processSimple (gene : List Char) (p : Primer) : Primer :=
  { locateSimple gene p with
    hairpin3 := some (checkHairpin3Prime p.seq 6 2 12)
    hairpin5 := some (checkHairpin5Prime p.seq 6 2 12)
    hasHairpin := some ((checkHairpin3Prime p.seq 6 2 12).isSome
                        || (checkHairpin5Prime p.seq 6 2 12).isSome) }

/-- Dispatch of the `attachPrimerPositions` loop body on the primer name. -/
def processPrimer (gene : List Char) (p : Primer) : Primer :=
  let isFIP : Bool := p.name.map upc = "FIP".toList
  let isBIP : Bool := p.name.map upc = "BIP".toList
  if isFIP || isBIP then processInner gene p isFIP
  else processSimple gene p

/-- `attachPrimerPositions(gene, primers)` from the source: uppercase the
gene, process every primer, then run the cross-dimer check over the
processed list and return its records.  The in-place mutation of the source
is modelled by returning the updated primer list together with the dimer
list. -/
def attachPrimerPositions (gene : List Char) (primers : List Primer) :
    List Primer × List DimerRec :=
  let g := gene.map upc
  let ps := primers.map (processPrimer g)
  (ps, checkAllDimers ps)

/-! ### Basic lemmas about the string primitives -/

lemma patAt_iff : ∀ pat s : List Char, patAt pat s = true ↔ pat <+: s
  | [], s => by simp [patAt]
  | _ :: _, [] => by simp [patAt]
  | a :: as, b :: bs => by
    simp [patAt, List.cons_prefix_cons, patAt_iff as bs, Bool.and_eq_true,
      decide_eq_true_eq]

lemma strIndexOf_eq_some (s pat : List Char) (i : Nat)
    (h : strIndexOf s pat = some i) :
    pat <+: s.drop i ∧ ∀ j, j < i → ¬ pat <+: s.drop j := by
  induction s generalizing i with
  | nil =>
    by_cases hp : patAt pat [] = true
    · simp only [strIndexOf, if_pos hp, Option.some.injEq] at h
      subst h
      exact ⟨(patAt_iff pat []).mp hp, fun j hj => absurd hj (Nat.not_lt_zero j)⟩
    · simp [strIndexOf, hp] at h
  | cons c t ih =>
    by_cases hp : patAt pat (c :: t) = true
    · simp only [strIndexOf, if_pos hp, Option.some.injEq] at h
      subst h
      exact ⟨(patAt_iff pat (c :: t)).mp hp, fun j hj => absurd hj (Nat.not_lt_zero j)⟩
    · simp only [strIndexOf, if_neg hp, Option.map_eq_some'] at h
      obtain ⟨i', hi', rfl⟩ := h
      obtain ⟨h1, h2⟩ := ih i' hi'
      refine ⟨by simpa using h1, fun j hj => ?_⟩
      match j with
      | 0 => exact fun hpre => hp ((patAt_iff pat (c :: t)).mpr hpre)
      | j' + 1 =>
        simpa using h2 j' (Nat.lt_of_succ_lt_succ hj)

lemma strIndexOf_eq_none (s pat : List Char) (h : strIndexOf s pat = none) :
    ∀ i, ¬ pat <+: s.drop i := by
  induction s with
  | nil =>
    intro i hpre
    rw [List.drop_nil] at hpre
    rw [List.prefix_nil] at hpre
    subst hpre
    simp [strIndexOf, patAt] at h
  | cons c t ih =>
    by_cases hp : patAt pat (c :: t) = true
    · simp [strIndexOf, hp] at h
    · simp only [strIndexOf, if_neg hp, Option.map_eq_none'] at h
      intro i
      match i with
      | 0 => exact fun hpre => hp ((patAt_iff pat (c :: t)).mpr hpre)
      | i' + 1 => simpa using ih h i'

lemma strIndexOf_isSome_iff (s pat : List Char) :
    (strIndexOf s pat).isSome = true ↔ ∃ i, pat <+: s.drop i := by
  constructor
  · intro h
    obtain ⟨i, hi⟩ := Option.isSome_iff_exists.mp h
    exact ⟨i, (strIndexOf_eq_some s pat i hi).1⟩
  · rintro ⟨i, hi⟩
    cases hoc : strIndexOf s pat with
    | none => exact absurd hi (strIndexOf_eq_none s pat hoc i)
    | some k => simp

/-! ### Claim C7: reverse complement is an involution on DNA strings -/

lemma complBase_complBase (c : Char)
    (h : c = 'A' ∨ c = 'C' ∨ c = 'G' ∨ c = 'T') :
    complBase (complBase c) = c := by
  rcases h with rfl | rfl | rfl | rfl <;> rfl

/-- Claim C7: `revcomp` is an involution on DNA strings: for every string
over the alphabet A, C, G, T, `revcomp (revcomp s) = s`. -/
theorem revcomp_involution (s : List Char)
    (h : ∀ c ∈ s, c = 'A' ∨ c = 'C' ∨ c = 'G' ∨ c = 'T') :
    revcomp (revcomp s) = s := by
  unfold revcomp
  rw [List.map_reverse, List.map_map]
  have hmap : s.reverse.map (complBase ∘ complBase) = s.reverse.map id :=
    List.map_congr_left fun c hc => complBase_complBase c (h c (List.mem_reverse.mp hc))
  rw [hmap, List.map_id, List.reverse_reverse]

/-- Witness for C7 at the concrete string ACGT. -/
theorem revcomp_involution_witness :
    revcomp (revcomp ("ACGT".toList)) = "ACGT".toList :=
  revcomp_involution _ (by decide)

/-! ### Characterization of the 3' hairpin scan -/

lemma loopScan3_eq_some (sr rc : List Char) (k : Nat) (lp fuel s l : Nat)
    (h : loopScan3 sr rc k lp fuel = some (s, l)) :
    lp ≤ l ∧ l < lp + fuel ∧ k + l ≤ sr.length ∧
    s = sr.length - k - l ∧ (sr.drop s).take k = rc := by
  induction fuel generalizing lp with
  | zero => simp [loopScan3] at h
  | succ fuel ih =>
    simp only [loopScan3] at h
    by_cases hlen : sr.length < k + lp
    · simp [hlen] at h
    · rw [if_neg hlen] at h
      by_cases hw : (sr.drop (sr.length - k - lp)).take k = rc
      · rw [if_pos hw] at h
        obtain ⟨rfl, rfl⟩ : sr.length - k - lp = s ∧ lp = l := by
          simpa using h
        exact ⟨Nat.le_refl _, by omega, by omega, rfl, hw⟩
      · rw [if_neg hw] at h
        obtain ⟨h1, h2, h3, h4, h5⟩ := ih (lp + 1) h
        exact ⟨by omega, by omega, h3, h4, h5⟩

lemma stemScan3_eq_some (region : List Char) (scanStart n minStem maxLoop : Nat)
    (m : Nat) (r : Hairpin3)
    (h : stemScan3 region scanStart n minStem maxLoop m = some r) :
    ∃ k l st,
      minStem ≤ k ∧ k ≤ m ∧ 3 ≤ l ∧ l < 3 + (maxLoop - 2) ∧
      2 * k + l ≤ region.length ∧ st = region.length - 2 * k - l ∧
      ((region.take (region.length - k)).drop st).take k = revcomp (takeLast region k) ∧
      r = ⟨"3prime".toList, takeLast region k, revcomp (takeLast region k), k, l,
           n - k, n, scanStart + st, scanStart + st + k⟩ := by
  induction m with
  | zero => simp [stemScan3] at h
  | succ m ih =>
    simp only [stemScan3] at h
    by_cases hms : m + 1 < minStem
    · simp [hms] at h
    · rw [if_neg hms] at h
      rcases hls : loopScan3 (region.take (region.length - (m + 1)))
          (revcomp (takeLast region (m + 1))) (m + 1) 3 (maxLoop - 2) with _ | ⟨start, lp⟩
      · rw [hls] at h
        obtain ⟨k, l, st, hks⟩ := ih h
        exact ⟨k, l, st, hks.1, by omega, hks.2.2.1, hks.2.2.2.1, hks.2.2.2.2.1,
          hks.2.2.2.2.2.1, hks.2.2.2.2.2.2.1, hks.2.2.2.2.2.2.2⟩
      · rw [hls] at h
        obtain ⟨hlp1, hlp2, hlp3, hlp4, hlp5⟩ :=
          loopScan3_eq_some _ _ _ _ _ _ _ hls
        have hsrlen : (region.take (region.length - (m + 1))).length
            = region.length - (m + 1) := by
          simp [List.length_take]
        rw [hsrlen] at hlp3 hlp4
        refine ⟨m + 1, lp, start, by omega, Nat.le_refl _, hlp1, hlp2, by omega,
          by omega, hlp5, ?_⟩
        simp only [Option.some.injEq] at h
        exact h.symm


/-- Consistency of the 3' stem scan run on a suffix window of the uppercased
input `p`, with the window offset `scanStart` and the full length `p.length`
threaded through exactly as `checkHairpin3Prime` does. -/
lemma stemScan3_drop_consistent (p : List Char) (scanStart : Nat)
    (hss : scanStart ≤ p.length) (r : Hairpin3)
    (h : stemScan3 (p.drop scanStart) scanStart p.length 2 12 6 = some r) :
    2 ≤ r.stemLength ∧ r.stemLength ≤ 6 ∧
    3 ≤ r.loopLength ∧ r.loopLength ≤ 12 ∧
    r.posUpstreamStart < r.posUpstreamEnd ∧
    r.posUpstreamEnd ≤ r.pos3PrimeStart ∧
    r.pos3PrimeStart < r.pos3PrimeEnd ∧
    r.pos3PrimeEnd = p.length ∧
    r.pos3PrimeStart - r.posUpstreamEnd = r.loopLength ∧
    r.stemRC = revcomp r.stemSeq ∧
    (p.drop r.pos3PrimeStart).take (r.pos3PrimeEnd - r.pos3PrimeStart) = r.stemSeq ∧
    (p.drop r.posUpstreamStart).take (r.posUpstreamEnd - r.posUpstreamStart) = r.stemRC := by
  obtain ⟨k, l, st, hk1, hk2, hl1, hl2, hlen, hst, hwin, hr⟩ :=
    stemScan3_eq_some _ _ _ _ _ _ _ h
  subst hr
  have hL : (p.drop scanStart).length = p.length - scanStart := List.length_drop _ _
  rw [hL] at hlen hst
  dsimp only
  have htail : takeLast (p.drop scanStart) k = p.drop (p.length - k) := by
    unfold takeLast
    rw [hL, List.drop_drop]
    congr 1
    omega
  have hlen_tail : (p.drop (p.length - k)).length = k := by
    rw [List.length_drop]
    omega
  refine ⟨by omega, by omega, hl1, by omega, by omega, by omega, by omega, rfl,
    by omega, rfl, ?_, ?_⟩
  · rw [htail]
    have hamt : p.length - (p.length - k) = k := by omega
    rw [hamt]
    exact List.take_of_length_le (le_of_eq hlen_tail)
  · have hamt : scanStart + st + k - (scanStart + st) = k := by omega
    rw [hamt]
    have hdd : p.drop (scanStart + st) = (p.drop scanStart).drop st := by
      rw [List.drop_drop]
    rw [hdd, ← hwin, List.drop_take, List.take_take]
    congr 1
    rw [hL]
    omega

/-- Claim C10: whenever `checkHairpin3Prime` (default parameters) returns a
result rather than null, the result is internally consistent: stem length in
2..6, loop length in 3..12, ordered position ranges ending at the input
length, gap equal to the loop length, `stemRC = revcomp stemSeq`, and both
substrings of the uppercased input matching the recorded stem texts. -/
theorem checkHairpin3Prime_consistent (primer : List Char) (r : Hairpin3)
    (h : checkHairpin3Prime primer 6 2 12 = some r) :
    2 ≤ r.stemLength ∧ r.stemLength ≤ 6 ∧
    3 ≤ r.loopLength ∧ r.loopLength ≤ 12 ∧
    r.posUpstreamStart < r.posUpstreamEnd ∧
    r.posUpstreamEnd ≤ r.pos3PrimeStart ∧
    r.pos3PrimeStart < r.pos3PrimeEnd ∧
    r.pos3PrimeEnd = (primer.map upc).length ∧
    r.pos3PrimeStart - r.posUpstreamEnd = r.loopLength ∧
    r.stemRC = revcomp r.stemSeq ∧
    ((primer.map upc).drop r.pos3PrimeStart).take (r.pos3PrimeEnd - r.pos3PrimeStart)
      = r.stemSeq ∧
    ((primer.map upc).drop r.posUpstreamStart).take (r.posUpstreamEnd - r.posUpstreamStart)
      = r.stemRC := by
  simp only [checkHairpin3Prime] at h
  by_cases h15 : 15 < (primer.map upc).length
  · rw [if_pos h15, if_pos h15] at h
    exact stemScan3_drop_consistent (primer.map upc) ((primer.map upc).length - 15)
      (by omega) r h
  · rw [if_neg h15, if_neg h15] at h
    rw [show (primer.map upc) = (primer.map upc).drop 0 from (List.drop_zero _).symm] at h
    exact stemScan3_drop_consistent (primer.map upc) 0 (Nat.zero_le _) r
      (by simpa using h)

/-- Concrete input for the C10 witness. -/
def c10wPrimer : List Char := "ATGGGGTTTAAACCCC".toList

/-- Concrete hairpin record returned on `c10wPrimer`. -/
def c10wRec : Hairpin3 :=
  ⟨"3prime".toList, "ACCCC".toList, "GGGGT".toList, 5, 4, 11, 16, 2, 7⟩

/-- Witness for C10 at a concrete hairpin-forming primer. -/
theorem checkHairpin3Prime_consistent_witness :
    2 ≤ c10wRec.stemLength ∧ c10wRec.stemLength ≤ 6 ∧
    3 ≤ c10wRec.loopLength ∧ c10wRec.loopLength ≤ 12 ∧
    c10wRec.posUpstreamStart < c10wRec.posUpstreamEnd ∧
    c10wRec.posUpstreamEnd ≤ c10wRec.pos3PrimeStart ∧
    c10wRec.pos3PrimeStart < c10wRec.pos3PrimeEnd ∧
    c10wRec.pos3PrimeEnd = (c10wPrimer.map upc).length ∧
    c10wRec.pos3PrimeStart - c10wRec.posUpstreamEnd = c10wRec.loopLength ∧
    c10wRec.stemRC = revcomp c10wRec.stemSeq ∧
    ((c10wPrimer.map upc).drop c10wRec.pos3PrimeStart).take
      (c10wRec.pos3PrimeEnd - c10wRec.pos3PrimeStart) = c10wRec.stemSeq ∧
    ((c10wPrimer.map upc).drop c10wRec.posUpstreamStart).take
      (c10wRec.posUpstreamEnd - c10wRec.posUpstreamStart) = c10wRec.stemRC :=
  checkHairpin3Prime_consistent c10wPrimer c10wRec (by decide)

/-! ### Claim C4: window restriction and coordinate remapping -/

/-- Shift all four position fields of a 3' hairpin record by a window
offset. -/
def hpShift (s : Nat) (r : Hairpin3) : Hairpin3 :=
  { r with
    pos3PrimeStart := s + r.pos3PrimeStart
    pos3PrimeEnd := s + r.pos3PrimeEnd
    posUpstreamStart := s + r.posUpstreamStart
    posUpstreamEnd := s + r.posUpstreamEnd }

/-- The 3' stem scan over a window depends on the window content only; the
window offset and the full length enter solely as additive shifts of the
returned positions. -/
lemma stemScan3_shift (region : List Char) (s minStem maxLoop : Nat) (m : Nat) :
    stemScan3 region s (s + region.length) minStem maxLoop m
      = (stemScan3 region 0 region.length minStem maxLoop m).map (hpShift s) := by
  induction m with
  | zero => simp [stemScan3]
  | succ m ih =>
    simp only [stemScan3]
    by_cases hms : m + 1 < minStem
    · simp [hms]
    · rw [if_neg hms, if_neg hms]
      rcases hls : loopScan3 (region.take (region.length - (m + 1)))
          (revcomp (takeLast region (m + 1))) (m + 1) 3 (maxLoop - 2) with _ | ⟨start, lp⟩
      · simpa using ih
      · obtain ⟨_, _, hlp3, _, _⟩ := loopScan3_eq_some _ _ _ _ _ _ _ hls
        have hTL : (List.take (region.length - (m + 1)) region).length
            = region.length - (m + 1) := by
          simp [List.length_take]
        rw [hTL] at hlp3
        dsimp only
        simp only [Option.map_some', Option.some.injEq, hpShift, Hairpin3.mk.injEq,
          true_and, and_true]
        omega

/-- Claim C4: for inputs longer than 15 symbols the 3' scan looks only at the
last 15 symbols and the 5' scan only at the first 15: the 3' result equals
the result of scanning the terminal 15-symbol window alone with all
positions shifted back by the window offset, and the 5' result equals the
result of scanning the leading 15-symbol window alone.  In particular a
hairpin whose stem pair lies outside the window can never be reported, and
returned positions are full-sequence coordinates. -/
theorem hairpin_window_locality (p : List Char) (h : 15 < p.length) :
    checkHairpin3Prime p 6 2 12
      = (checkHairpin3Prime (p.drop (p.length - 15)) 6 2 12).map
          (hpShift (p.length - 15)) ∧
    checkHairpin5Prime p 6 2 12 = checkHairpin5Prime (p.take 15) 6 2 12 := by
  have hlenU : (p.map upc).length = p.length := List.length_map p upc
  constructor
  · simp only [checkHairpin3Prime]
    rw [List.map_drop, hlenU]
    have hlen15 : ((p.map upc).drop (p.length - 15)).length = 15 := by
      rw [List.length_drop, hlenU]
      omega
    rw [if_pos h, if_pos h, if_neg (by rw [hlen15]; omega)]
    rw [hlen15]
    have hsplit : p.length = (p.length - 15) + ((p.map upc).drop (p.length - 15)).length := by
      rw [hlen15]
      omega
    calc stemScan3 ((p.map upc).drop (p.length - 15)) (p.length - 15) p.length 2 12 6
        = stemScan3 ((p.map upc).drop (p.length - 15)) (p.length - 15)
            ((p.length - 15) + ((p.map upc).drop (p.length - 15)).length) 2 12 6 := by
          rw [← hsplit]
      _ = (stemScan3 ((p.map upc).drop (p.length - 15)) 0
            ((p.map upc).drop (p.length - 15)).length 2 12 6).map
            (hpShift (p.length - 15)) := stemScan3_shift _ _ _ _ _
      _ = (stemScan3 ((p.map upc).drop (p.length - 15)) 0 15 2 12 6).map
            (hpShift (p.length - 15)) := by rw [hlen15]
  · simp only [checkHairpin5Prime]
    rw [List.map_take, hlenU]
    have hlen15 : ((p.map upc).take 15).length = 15 := by
      rw [List.length_take, hlenU]
      omega
    rw [if_pos h, if_neg (by rw [hlen15]; omega)]

/-- Concrete input for the C4 witness (length 16). -/
def c4wPrimer : List Char := "ACGTACGTACGTACGT".toList

/-- Witness for C4 at a concrete 16-symbol sequence. -/
theorem hairpin_window_locality_witness :
    checkHairpin3Prime c4wPrimer 6 2 12
      = (checkHairpin3Prime (c4wPrimer.drop (c4wPrimer.length - 15)) 6 2 12).map
          (hpShift (c4wPrimer.length - 15)) ∧
    checkHairpin5Prime c4wPrimer 6 2 12 = checkHairpin5Prime (c4wPrimer.take 15) 6 2 12 :=
  hairpin_window_locality c4wPrimer (by decide)

/-! ### Claim C1: the constructed stem-loop example at the 3' end -/

/-- Counterexample to C1 as stated: on padding "AT" followed by
GGGG + TTTAAA + CCCC (total length 16), `checkHairpin3Prime` with default
parameters returns stem length 5 and stem text ACCCC (the A·T pair adjacent
to the loop extends the stem, and the longest stem wins), not stem length 4
with stem text CCCC. -/
theorem checkHairpin3Prime_ggggcccc_cex :
    checkHairpin3Prime ("ATGGGGTTTAAACCCC".toList) 6 2 12
      = some ⟨"3prime".toList, "ACCCC".toList, "GGGGT".toList, 5, 4, 11, 16, 2, 7⟩ ∧
    (checkHairpin3Prime ("ATGGGGTTTAAACCCC".toList) 6 2 12).map Hairpin3.stemLength
      ≠ some 4 ∧
    (checkHairpin3Prime ("ATGGGGTTTAAACCCC".toList) 6 2 12).map Hairpin3.stemSeq
      ≠ some ("CCCC".toList) := by
  refine ⟨by decide, by decide, by decide⟩

/-- Claim C1 (amended): for any DNA padding of length at least 2 followed by
GGGG + TTTAAA + CCCC, `checkHairpin3Prime` with default parameters returns a
hairpin with stem length 5 (stem ACCCC, its upstream partner GGGGT) and loop
length 4, with all four positions in full-sequence coordinates.  With the
padding written as `xs ++ [c]`, the stem occupies the last 5 symbols
(`xs.length + 10` to `xs.length + 15`) and the upstream partner starts right
at the GGGG run (`xs.length + 1` to `xs.length + 6`). -/
theorem checkHairpin3Prime_ggggcccc (xs : List Char) (c : Char)
    (hx : 1 ≤ xs.length)
    (hc : c = 'A' ∨ c = 'C' ∨ c = 'G' ∨ c = 'T') :
    checkHairpin3Prime (xs ++ c :: "GGGGTTTAAACCCC".toList) 6 2 12
      = some ⟨"3prime".toList, "ACCCC".toList, "GGGGT".toList, 5, 4,
              xs.length + 10, xs.length + 15, xs.length + 1, xs.length + 6⟩ := by
  have hupc : upc c = c := by rcases hc with rfl | rfl | rfl | rfl <;> decide
  have hS : ("GGGGTTTAAACCCC".toList).map upc = "GGGGTTTAAACCCC".toList := by decide
  have hup : (xs ++ c :: "GGGGTTTAAACCCC".toList).map upc
      = xs.map upc ++ (c :: "GGGGTTTAAACCCC".toList) := by
    rw [List.map_append, List.map_cons, hS, hupc]
  have hlen : ((xs ++ c :: "GGGGTTTAAACCCC".toList).map upc).length = xs.length + 15 := by
    simp
  simp only [checkHairpin3Prime]
  rw [hlen, if_pos (by omega), if_pos (by omega), hup]
  have h15 : xs.length + 15 - 15 = (xs.map upc).length := by simp
  rw [h15, List.drop_left, List.length_map]
  have hshift := stemScan3_shift (c :: "GGGGTTTAAACCCC".toList) xs.length 2 12 6
  rw [show (c :: "GGGGTTTAAACCCC".toList).length = 15 from by simp] at hshift
  rw [hshift]
  have key : stemScan3 (c :: "GGGGTTTAAACCCC".toList) 0 15 2 12 6
      = some ⟨"3prime".toList, "ACCCC".toList, "GGGGT".toList, 5, 4, 10, 15, 1, 6⟩ := by
    rcases hc with rfl | rfl | rfl | rfl <;> decide
  rw [key]
  simp [hpShift]

/-- Witness for the amended C1 at padding AT. -/
theorem checkHairpin3Prime_ggggcccc_witness :
    checkHairpin3Prime (['A'] ++ 'T' :: "GGGGTTTAAACCCC".toList) 6 2 12
      = some ⟨"3prime".toList, "ACCCC".toList, "GGGGT".toList, 5, 4,
              ['A'].length + 10, ['A'].length + 15, ['A'].length + 1, ['A'].length + 6⟩ :=
  checkHairpin3Prime_ggggcccc ['A'] 'T' (by decide) (by decide)

/-! ### Characterization of the composite-primer splitter -/

lemma splitTry_eq_some (seqU gene : List Char) (fip : Bool) (rl : Nat)
    (r : SplitResult) (h : splitTry seqU gene fip rl = some r) :
    (r.left = seqU.take (seqU.length - rl) ∧ r.right = seqU.drop (seqU.length - rl)) ∨
    (r.left = seqU.drop (seqU.length - rl) ∧ r.right = seqU.take (seqU.length - rl)) := by
  simp only [splitTry] at h
  rcases h1 : strIndexOf gene (seqU.drop (seqU.length - rl)) with _ | i1 <;>
    rcases h2 : strIndexOf gene (revcomp (seqU.take (seqU.length - rl))) with _ | i2 <;>
    simp only [h1, h2, Option.some.injEq] at h <;>
    all_goals first
      | (subst h
         exact Or.inl ⟨rfl, rfl⟩)
      | (rcases h3 : strIndexOf gene (seqU.take (seqU.length - rl)) with _ | i3 <;>
          rcases h4 : strIndexOf gene (revcomp (seqU.drop (seqU.length - rl))) with _ | i4 <;>
          simp only [h3, h4, Option.some.injEq] at h <;>
          first
            | (subst h
               exact Or.inr ⟨rfl, rfl⟩)
            | exact Option.noConfusion h)

lemma splitFrom_eq_some (seqU gene : List Char) (fip : Bool) (k fuel : Nat)
    (r : SplitResult) (h : splitFrom seqU gene fip k fuel = some r) :
    ∃ rl, k ≤ rl ∧ rl < k + fuel ∧ rl ≤ 35 ∧ rl + 10 < seqU.length ∧
      splitTry seqU gene fip rl = some r ∧
      ∀ j, k ≤ j → j < rl → splitTry seqU gene fip j = none := by
  induction fuel generalizing k with
  | zero => simp [splitFrom] at h
  | succ fuel ih =>
    simp only [splitFrom] at h
    by_cases hg : k ≤ 35 ∧ k + 10 < seqU.length
    · rw [if_pos hg] at h
      rcases ht : splitTry seqU gene fip k with _ | r'
      · simp only [ht] at h
        obtain ⟨rl, hk1, hk2, hk3, hk4, hk5, hk6⟩ := ih (k + 1) h
        refine ⟨rl, by omega, by omega, hk3, hk4, hk5, fun j hj1 hj2 => ?_⟩
        rcases Nat.eq_or_lt_of_le hj1 with rfl | hlt
        · exact ht
        · exact hk6 j hlt hj2
      · simp only [ht, Option.some.injEq] at h
        subst h
        exact ⟨k, Nat.le_refl _, by omega, hg.1, hg.2, ht,
          fun j hj1 hj2 => absurd (Nat.lt_of_le_of_lt hj1 hj2) (Nat.lt_irrefl _)⟩
    · rw [if_neg hg] at h
      exact absurd h (by simp)

/-! ### Claim C2: reconstructing the composite from the returned halves -/

/-- Counterexample input sequence for C2 (swapped-hypothesis branch). -/
def c2cSeq : List Char := ("ATATATATATATATA" ++ "CCCCCCCCCCCCCCC").toList

/-- Counterexample gene for C2: contains the left part forward and the
reverse complement of the right part, but not the right part itself. -/
def c2cGene : List Char := ("ATATATATATATATA" ++ "TTT" ++ "GGGGGGGGGGGGGGG").toList

/-- The split record returned on the C2 counterexample input. -/
def c2cRec : SplitResult :=
  ⟨"CCCCCCCCCCCCCCC".toList, "ATATATATATATATA".toList,
   "F1c".toList, "F2".toList, 18, 33, 0, 15⟩

/-- Counterexample to C2 as stated: on the swapped-hypothesis branch the
returned `left` and `right` fields are exchanged, so `left ++ right` is not
the uppercased input (instead `right ++ left` is). -/
theorem splitInnerPrimer_reconstruct_cex :
    splitInnerPrimer c2cSeq c2cGene true = some c2cRec ∧
    c2cRec.left ++ c2cRec.right ≠ c2cSeq.map upc := by
  exact ⟨by decide, by decide⟩

/-- Claim C2 (amended): for every composite primer and gene on which
`splitInnerPrimer` succeeds, the two returned halves reconstruct the
uppercased input: `left ++ right` equals it on the forward-right branch and
`right ++ left` equals it on the swapped branch. -/
theorem splitInnerPrimer_reconstruct (s g : List Char) (fip : Bool)
    (r : SplitResult) (h : splitInnerPrimer s g fip = some r) :
    r.left ++ r.right = s.map upc ∨ r.right ++ r.left = s.map upc := by
  obtain ⟨rl, _, _, _, _, ht, _⟩ := splitFrom_eq_some _ _ _ _ _ _ h
  rcases splitTry_eq_some _ _ _ _ _ ht with ⟨hl, hr⟩ | ⟨hl, hr⟩
  · left
    rw [hl, hr, List.take_append_drop]
  · right
    rw [hl, hr, List.take_append_drop]

/-- Witness composite sequence for C2 (forward-right branch). -/
def c2wSeq : List Char := ("AAAAAAAAAAA" ++ "CCCCCCCCCCCCCCC").toList

/-- Witness gene for C2: contains the right part forward and the reverse
complement of the left part. -/
def c2wGene : List Char := ("TTTTTTTTTTT" ++ "GGG" ++ "CCCCCCCCCCCCCCC").toList

/-- The split record returned on the C2 witness input. -/
def c2wRec : SplitResult :=
  ⟨"AAAAAAAAAAA".toList, "CCCCCCCCCCCCCCC".toList,
   "F1c".toList, "F2".toList, 0, 11, 14, 29⟩

/-- Witness for the amended C2 on a concrete successful split. -/
theorem splitInnerPrimer_reconstruct_witness :
    splitInnerPrimer c2wSeq c2wGene true = some c2wRec ∧
    (c2wRec.left ++ c2wRec.right = c2wSeq.map upc ∨
     c2wRec.right ++ c2wRec.left = c2wSeq.map upc) :=
  ⟨by decide, splitInnerPrimer_reconstruct c2wSeq c2wGene true c2wRec (by decide)⟩

/-! ### Claim C3: ascending enumeration of candidate right-half lengths -/

/-- Counterexample composite sequence for C3 (51 symbols). -/
def c3cSeq : List Char :=
  ("AAAAAAAAAAAAAAAAAAAAAAAAAAAAAAAAAAAA" ++ "CCCCCCCCCCCCCCC").toList

/-- Counterexample gene for C3. -/
def c3cGene : List Char :=
  ("AAAAAAAAAAAAAAAAAAAAAAAAAAAAAAAAAAAA" ++ "TT" ++ "GGGGGGGGGGGGGGG").toList

/-- The split record returned on the C3 counterexample input. -/
def c3cRec : SplitResult :=
  ⟨"CCCCCCCCCCCCCCC".toList, "AAAAAAAAAAAAAAAAAAAAAAAAAAAAAAAAAAAA".toList,
   "F1c".toList, "F2".toList, 38, 53, 0, 36⟩

/-- Counterexample to C3 as stated: the candidate right-half length is 15,
but on the swapped branch the returned `right` field is the left part, of
length 36, outside the claimed 15–35 range. -/
theorem splitInnerPrimer_first_candidate_cex :
    splitInnerPrimer c3cSeq c3cGene true = some c3cRec ∧
    ¬ (c3cRec.right.length ≤ 35) := by
  exact ⟨by decide, by decide⟩

/-- Claim C3 (amended): `splitInnerPrimer` enumerates candidate right-half
lengths ascending from 15 to 35 (stopping once the left half would drop
under 10 symbols) and returns at the first candidate length at which either
hypothesis succeeds; no smaller candidate length in range admits a valid
split.  The trailing suffix tried at the winning candidate length `rl` has
length `rl`, and the returned `right` field has length `rl` on the
forward-right branch but length `seq.length - rl` on the swapped branch. -/
theorem splitInnerPrimer_first_candidate (s g : List Char) (fip : Bool)
    (r : SplitResult) (h : splitInnerPrimer s g fip = some r) :
    ∃ rl, 15 ≤ rl ∧ rl ≤ 35 ∧ rl + 10 < (s.map upc).length ∧
      splitTry (s.map upc) g fip rl = some r ∧
      (∀ j, 15 ≤ j → j < rl → splitTry (s.map upc) g fip j = none) ∧
      (r.right.length = rl ∨ r.right.length = (s.map upc).length - rl) := by
  obtain ⟨rl, h1, _, h3, h4, ht, hmin⟩ := splitFrom_eq_some _ _ _ _ _ _ h
  refine ⟨rl, h1, h3, h4, ht, fun j hj1 hj2 => hmin j hj1 hj2, ?_⟩
  rcases splitTry_eq_some _ _ _ _ _ ht with ⟨_, hr⟩ | ⟨_, hr⟩
  · left
    rw [hr, List.length_drop]
    omega
  · right
    rw [hr, List.length_take]
    omega

/-- Witness for the amended C3 on the concrete C2 witness split. -/
theorem splitInnerPrimer_first_candidate_witness :
    ∃ rl, 15 ≤ rl ∧ rl ≤ 35 ∧ rl + 10 < (c2wSeq.map upc).length ∧
      splitTry (c2wSeq.map upc) c2wGene true rl = some c2wRec ∧
      (∀ j, 15 ≤ j → j < rl → splitTry (c2wSeq.map upc) c2wGene true j = none) ∧
      (c2wRec.right.length = rl ∨ c2wRec.right.length = (c2wSeq.map upc).length - rl) :=
  splitInnerPrimer_first_candidate c2wSeq c2wGene true c2wRec (by decide)

/-! ### Claim C5: per-direction dimer detection -/

lemma dimerDir_eq_some (nA nB a b : List Char) (mm : Nat) (tag : List Char)
    (k : Nat) (r : DimerRec) (h : dimerDir nA nB a b mm tag k = some r) :
    mm ≤ r.matchLength ∧ r.matchLength ≤ k ∧ r.matchLength ≤ a.length ∧
    r.primer1 = nA ∧ r.primer2 = nB ∧ r.direction = tag ∧
    r.primer1_3prime = takeLast a r.matchLength ∧
    r.primer1_3prime_rc = revcomp (takeLast a r.matchLength) ∧
    strIndexOf b (revcomp (takeLast a r.matchLength)) = some r.bindingPos ∧
    ∀ m, r.matchLength < m → m ≤ k → m ≤ a.length → mm ≤ m →
      strIndexOf b (revcomp (takeLast a m)) = none := by
  induction k with
  | zero => simp [dimerDir] at h
  | succ k ih =>
    simp only [dimerDir] at h
    by_cases hmm : k + 1 < mm
    · simp [hmm] at h
    · rw [if_neg hmm] at h
      by_cases hlen : k + 1 ≤ a.length
      · rw [if_pos hlen] at h
        rcases hio : strIndexOf b (revcomp (takeLast a (k + 1))) with _ | idx
        · simp only [hio] at h
          obtain ⟨g1, g2, g3, g4, g5, g6, g7, g8, g9, g10⟩ := ih h
          refine ⟨g1, by omega, g3, g4, g5, g6, g7, g8, g9, fun m hm1 hm2 hm3 hm4 => ?_⟩
          rcases Nat.eq_or_lt_of_le hm2 with rfl | hmlt
          · exact hio
          · exact g10 m hm1 (by omega) hm3 hm4
        · simp only [hio, Option.some.injEq] at h
          subst h
          dsimp only
          exact ⟨by omega, Nat.le_refl _, hlen, rfl, rfl, rfl, rfl, rfl, hio,
            fun m hm1 hm2 _ _ => absurd (Nat.lt_of_lt_of_le hm1 hm2) (Nat.lt_irrefl _)⟩
      · rw [if_neg hlen] at h
        obtain ⟨g1, g2, g3, g4, g5, g6, g7, g8, g9, g10⟩ := ih h
        refine ⟨g1, by omega, g3, g4, g5, g6, g7, g8, g9, fun m hm1 hm2 hm3 hm4 => ?_⟩
        exact g10 m hm1 (by omega) hm3 hm4

lemma dimerDir_isSome_iff (nA nB a b : List Char) (mm : Nat) (tag : List Char)
    (k : Nat) (hmm : 1 ≤ mm) :
    (dimerDir nA nB a b mm tag k).isSome = true ↔
      ∃ m, mm ≤ m ∧ m ≤ k ∧ m ≤ a.length ∧
        (strIndexOf b (revcomp (takeLast a m))).isSome = true := by
  induction k with
  | zero =>
    simp only [dimerDir, Option.isSome_none, Bool.false_eq_true, false_iff]
    rintro ⟨m, hm1, hm2, _, _⟩
    omega
  | succ k ih =>
    simp only [dimerDir]
    by_cases hmmk : k + 1 < mm
    · rw [if_pos hmmk]
      simp only [Option.isSome_none, Bool.false_eq_true, false_iff]
      rintro ⟨m, hm1, hm2, _, _⟩
      omega
    · rw [if_neg hmmk]
      by_cases hlen : k + 1 ≤ a.length
      · rw [if_pos hlen]
        rcases hio : strIndexOf b (revcomp (takeLast a (k + 1))) with _ | idx
        · simp only [hio]
          rw [ih]
          constructor
          · rintro ⟨m, hm1, hm2, hm3, hm4⟩
            exact ⟨m, hm1, by omega, hm3, hm4⟩
          · rintro ⟨m, hm1, hm2, hm3, hm4⟩
            rcases Nat.eq_or_lt_of_le hm2 with rfl | hmlt
            · rw [hio] at hm4
              exact absurd hm4 (by simp)
            · exact ⟨m, hm1, by omega, hm3, hm4⟩
        · simp only [hio, Option.isSome_some, true_iff]
          exact ⟨k + 1, by omega, Nat.le_refl _, hlen, by rw [hio]; rfl⟩
      · rw [if_neg hlen]
        rw [ih]
        constructor
        · rintro ⟨m, hm1, hm2, hm3, hm4⟩
          exact ⟨m, hm1, by omega, hm3, hm4⟩
        · rintro ⟨m, hm1, hm2, hm3, hm4⟩
          exact ⟨m, hm1, by omega, hm3, hm4⟩

/-- Claim C5: `checkDimer` checks each direction independently and yields at
most one record per direction (so 0, 1 or 2 records in total).  A
direction's record exists exactly when some match length between `minMatch`
and 8 (not exceeding the first sequence's length) has the reverse complement
of the first sequence's terminal symbols occurring in the second sequence;
the emitted record carries the largest such match length, and `bindingPos`
is the first occurrence index in the second sequence. -/
theorem checkDimer_per_direction (nA nB A B : List Char) (mm : Nat)
    (tag : List Char) (hmm : 1 ≤ mm) :
    (checkDimer nA A nB B mm).length ≤ 2 ∧
    checkDimer nA A nB B mm
      = (dimerDir nA nB (A.map upc) (B.map upc) mm ("p1_to_p2".toList) 8).toList
        ++ (dimerDir nB nA (B.map upc) (A.map upc) mm ("p2_to_p1".toList) 8).toList ∧
    ((dimerDir nA nB (A.map upc) (B.map upc) mm tag 8).isSome = true ↔
      ∃ m, mm ≤ m ∧ m ≤ 8 ∧ m ≤ (A.map upc).length ∧
        ∃ i, revcomp (takeLast (A.map upc) m) <+: (B.map upc).drop i) ∧
    (∀ r, dimerDir nA nB (A.map upc) (B.map upc) mm tag 8 = some r →
      mm ≤ r.matchLength ∧ r.matchLength ≤ 8 ∧ r.matchLength ≤ (A.map upc).length ∧
      r.primer1_3prime = takeLast (A.map upc) r.matchLength ∧
      r.primer1_3prime_rc = revcomp r.primer1_3prime ∧
      (revcomp (takeLast (A.map upc) r.matchLength) <+: (B.map upc).drop r.bindingPos) ∧
      (∀ j, j < r.bindingPos →
        ¬ revcomp (takeLast (A.map upc) r.matchLength) <+: (B.map upc).drop j) ∧
      (∀ m, r.matchLength < m → m ≤ 8 → m ≤ (A.map upc).length → mm ≤ m →
        ∀ i, ¬ revcomp (takeLast (A.map upc) m) <+: (B.map upc).drop i)) := by
  refine ⟨?_, rfl, ?_, ?_⟩
  · simp only [checkDimer, List.length_append]
    rcases dimerDir nA nB (A.map upc) (B.map upc) mm ("p1_to_p2".toList) 8 <;>
      rcases dimerDir nB nA (B.map upc) (A.map upc) mm ("p2_to_p1".toList) 8 <;>
      simp
  · rw [dimerDir_isSome_iff _ _ _ _ _ _ _ hmm]
    refine exists_congr fun m => and_congr_right fun _ => and_congr_right fun _ =>
      and_congr_right fun _ => ?_
    exact strIndexOf_isSome_iff _ _
  · intro r hr
    obtain ⟨g1, g2, g3, _, _, _, g7, g8, g9, g10⟩ :=
      dimerDir_eq_some _ _ _ _ _ _ _ _ hr
    obtain ⟨hocc, hmin⟩ := strIndexOf_eq_some _ _ _ g9
    refine ⟨g1, g2, g3, g7, by rw [g8, g7], hocc, hmin, ?_⟩
    intro m hm1 hm2 hm3 hm4 i
    exact strIndexOf_eq_none _ _ (g10 m hm1 hm2 hm3 hm4) i

/-- Witness inputs for C5: P1 ends in ACGTAC, P2 contains its reverse
complement GTACGT internally. -/
def c5A : List Char := "TTTTACGTAC".toList

/-- Witness second primer for C5. -/
def c5B : List Char := "AAGTACGTAA".toList

/-- Witness for C5 at concrete primers and default `minMatch = 3`. -/
theorem checkDimer_per_direction_witness :
    (checkDimer ("P1".toList) c5A ("P2".toList) c5B 3).length ≤ 2 ∧
    checkDimer ("P1".toList) c5A ("P2".toList) c5B 3
      = (dimerDir ("P1".toList) ("P2".toList) (c5A.map upc) (c5B.map upc) 3
          ("p1_to_p2".toList) 8).toList
        ++ (dimerDir ("P2".toList) ("P1".toList) (c5B.map upc) (c5A.map upc) 3
          ("p2_to_p1".toList) 8).toList ∧
    ((dimerDir ("P1".toList) ("P2".toList) (c5A.map upc) (c5B.map upc) 3
        ("p1_to_p2".toList) 8).isSome = true ↔
      ∃ m, 3 ≤ m ∧ m ≤ 8 ∧ m ≤ (c5A.map upc).length ∧
        ∃ i, revcomp (takeLast (c5A.map upc) m) <+: (c5B.map upc).drop i) ∧
    (∀ r, dimerDir ("P1".toList) ("P2".toList) (c5A.map upc) (c5B.map upc) 3
        ("p1_to_p2".toList) 8 = some r →
      3 ≤ r.matchLength ∧ r.matchLength ≤ 8 ∧ r.matchLength ≤ (c5A.map upc).length ∧
      r.primer1_3prime = takeLast (c5A.map upc) r.matchLength ∧
      r.primer1_3prime_rc = revcomp r.primer1_3prime ∧
      (revcomp (takeLast (c5A.map upc) r.matchLength) <+: (c5B.map upc).drop r.bindingPos) ∧
      (∀ j, j < r.bindingPos →
        ¬ revcomp (takeLast (c5A.map upc) r.matchLength) <+: (c5B.map upc).drop j) ∧
      (∀ m, r.matchLength < m → m ≤ 8 → m ≤ (c5A.map upc).length → 3 ≤ m →
        ∀ i, ¬ revcomp (takeLast (c5A.map upc) m) <+: (c5B.map upc).drop i)) :=
  checkDimer_per_direction ("P1".toList) ("P2".toList) c5A c5B 3
    ("p1_to_p2".toList) (by decide)

/-! ### Converses for the first-occurrence search -/

lemma strIndexOf_of_firstOcc (s pat : List Char) (i : Nat)
    (h1 : pat <+: s.drop i) (h2 : ∀ j, j < i → ¬ pat <+: s.drop j) :
    strIndexOf s pat = some i := by
  cases hoc : strIndexOf s pat with
  | none => exact absurd h1 (strIndexOf_eq_none s pat hoc i)
  | some k =>
    obtain ⟨h1k, h2k⟩ := strIndexOf_eq_some s pat k hoc
    rcases Nat.lt_trichotomy i k with hlt | rfl | hgt
    · exact absurd h1 (h2k i hlt)
    · rfl
    · exact absurd h1k (h2 k hgt)

lemma strIndexOf_of_noOcc (s pat : List Char) (h : ∀ i, ¬ pat <+: s.drop i) :
    strIndexOf s pat = none := by
  cases hoc : strIndexOf s pat with
  | none => rfl
  | some k => exact absurd (strIndexOf_eq_some s pat k hoc).1 (h k)

/-! ### Claim C6: binding-location resolution for simple primers -/

/-- Claim C6: for a simple (non-FIP/BIP) primer, the orchestrator records
the first verbatim occurrence of the primer in the gene as a forward binding
on the half-open range starting at that index; failing that, the first
occurrence of its reverse complement as a reverse binding; failing both, the
not-found orientation with sentinel start and end both -1.  Forward always takes
priority. -/
theorem attachPrimerPositions_binding (g : List Char) (p : Primer)
    (hn1 : ¬ p.name.map upc = "FIP".toList)
    (hn2 : ¬ p.name.map upc = "BIP".toList) :
    (∀ i, (p.seq <+: g.drop i ∧ ∀ j, j < i → ¬ p.seq <+: g.drop j) →
      (processPrimer g p).start = some (i : Int) ∧
      (processPrimer g p).end_ = some ((i : Int) + p.seq.length) ∧
      (processPrimer g p).orientation = some ("forward".toList)) ∧
    ((∀ i, ¬ p.seq <+: g.drop i) →
      ∀ j, (revcomp p.seq <+: g.drop j ∧
            ∀ j2, j2 < j → ¬ revcomp p.seq <+: g.drop j2) →
      (processPrimer g p).start = some (j : Int) ∧
      (processPrimer g p).end_ = some ((j : Int) + p.seq.length) ∧
      (processPrimer g p).orientation = some ("reverse (RC)".toList)) ∧
    ((∀ i, ¬ p.seq <+: g.drop i) → (∀ j, ¬ revcomp p.seq <+: g.drop j) →
      (processPrimer g p).start = some (-1) ∧
      (processPrimer g p).end_ = some (-1) ∧
      (processPrimer g p).orientation = some ("not found".toList)) := by
  have hcond : (decide (p.name.map upc = "FIP".toList)
      || decide (p.name.map upc = "BIP".toList)) = false := by
    simp only [Bool.or_eq_false_iff, decide_eq_false_iff_not]
    exact ⟨hn1, hn2⟩
  have hred : processPrimer g p = processSimple g p := by
    simp only [processPrimer, hcond, Bool.false_eq_true, if_false]
  refine ⟨?_, ?_, ?_⟩
  · rintro i ⟨hocc, hmin⟩
    have hfw : strIndexOf g p.seq = some i := strIndexOf_of_firstOcc _ _ _ hocc hmin
    rw [hred]
    simp only [processSimple, locateSimple, hfw]
    exact ⟨trivial, trivial, trivial⟩
  · intro hno
    rintro j ⟨hocc, hmin⟩
    have hfw : strIndexOf g p.seq = none := strIndexOf_of_noOcc _ _ hno
    have hrv : strIndexOf g (revcomp p.seq) = some j :=
      strIndexOf_of_firstOcc _ _ _ hocc hmin
    rw [hred]
    simp only [processSimple, locateSimple, hfw, hrv]
    exact ⟨trivial, trivial, trivial⟩
  · intro hno hno2
    have hfw : strIndexOf g p.seq = none := strIndexOf_of_noOcc _ _ hno
    have hrv : strIndexOf g (revcomp p.seq) = none := strIndexOf_of_noOcc _ _ hno2
    rw [hred]
    simp only [processSimple, locateSimple, hfw, hrv]
    exact ⟨trivial, trivial, trivial⟩

/-- A fresh primer record with no analysis fields set. -/
def mkPrimer (nm sq : List Char) : Primer :=
  ⟨nm, sq, none, none, none, none, none, none, none, none, none,
   none, none, none, none, none, none⟩

/-- Witness gene for C6. -/
def c6wGene : List Char := "ACGTT".toList

/-- Witness primer for C6 (binds forward at index 1). -/
def c6wPrimer : Primer := mkPrimer ("F3".toList) ("CGT".toList)

/-- Witness for C6: the forward case at the concrete index 1. -/
theorem attachPrimerPositions_binding_witness :
    (processPrimer c6wGene c6wPrimer).start = some (1 : Int) ∧
    (processPrimer c6wGene c6wPrimer).end_ = some ((1 : Int) + c6wPrimer.seq.length) ∧
    (processPrimer c6wGene c6wPrimer).orientation = some ("forward".toList) :=
  (attachPrimerPositions_binding c6wGene c6wPrimer (by decide) (by decide)).1 1
    ⟨by decide, by decide⟩

/-! ### Claim C8: failed composite split leaves the primer unbound -/

/-- Claim C8: when a FIP/BIP primer fails to split, the orchestrator (a
total function, so no exception) marks it unbound with orientation
"not split" and sentinel start and end both -1, and skips hairpin scanning: the
`hairpin3`/`hairpin5`/`hasHairpin` fields keep their previous (unset)
values instead of being written with a no-hairpin result. -/
theorem attachPrimerPositions_split_failure (g : List Char) (p : Primer)
    (hname : p.name.map upc = "FIP".toList ∨ p.name.map upc = "BIP".toList)
    (hsplit : splitInnerPrimer p.seq g (decide (p.name.map upc = "FIP".toList)) = none) :
    (processPrimer g p).isInner = some true ∧
    (processPrimer g p).orientation = some ("not split".toList) ∧
    (processPrimer g p).start = some (-1) ∧
    (processPrimer g p).end_ = some (-1) ∧
    (processPrimer g p).hairpin3 = p.hairpin3 ∧
    (processPrimer g p).hairpin5 = p.hairpin5 ∧
    (processPrimer g p).hasHairpin = p.hasHairpin := by
  have hcond : (decide (p.name.map upc = "FIP".toList)
      || decide (p.name.map upc = "BIP".toList)) = true := by
    simp only [Bool.or_eq_true, decide_eq_true_eq]
    exact hname
  have hred : processPrimer g p
      = processInner g p (decide (p.name.map upc = "FIP".toList)) := by
    simp only [processPrimer, hcond, eq_self_iff_true, if_true]
  rw [hred]
  simp only [processInner, hsplit]
  exact ⟨trivial, trivial, trivial, trivial, trivial, trivial, trivial⟩

/-- Witness primer for C8: a FIP whose 4-symbol sequence can never split. -/
def c8wPrimer : Primer := mkPrimer ("FIP".toList) ("ACGT".toList)

/-- Witness for C8 at a concrete unsplittable FIP. -/
theorem attachPrimerPositions_split_failure_witness :
    (processPrimer ("A".toList) c8wPrimer).isInner = some true ∧
    (processPrimer ("A".toList) c8wPrimer).orientation = some ("not split".toList) ∧
    (processPrimer ("A".toList) c8wPrimer).start = some (-1) ∧
    (processPrimer ("A".toList) c8wPrimer).end_ = some (-1) ∧
    (processPrimer ("A".toList) c8wPrimer).hairpin3 = c8wPrimer.hairpin3 ∧
    (processPrimer ("A".toList) c8wPrimer).hairpin5 = c8wPrimer.hairpin5 ∧
    (processPrimer ("A".toList) c8wPrimer).hasHairpin = c8wPrimer.hasHairpin :=
  attachPrimerPositions_split_failure ("A".toList) c8wPrimer (Or.inl (by decide))
    (by decide)

/-! ### Claim C9: idempotence of the analysis pipeline -/

lemma processInner_name (g : List Char) (p : Primer) (b : Bool) :
    (processInner g p b).name = p.name := by
  unfold processInner
  split <;> rfl

lemma processInner_seq (g : List Char) (p : Primer) (b : Bool) :
    (processInner g p b).seq = p.seq := by
  unfold processInner
  split <;> rfl

lemma locateSimple_seq (g : List Char) (p : Primer) :
    (locateSimple g p).seq = p.seq := by
  unfold locateSimple
  split
  · rfl
  · split <;> rfl

lemma processSimple_name (g : List Char) (p : Primer) :
    (processSimple g p).name = p.name := by
  unfold processSimple locateSimple
  split
  · rfl
  · split <;> rfl

lemma processSimple_seq (g : List Char) (p : Primer) :
    (processSimple g p).seq = p.seq := by
  unfold processSimple locateSimple
  split
  · rfl
  · split <;> rfl

lemma processPrimer_name (g : List Char) (p : Primer) :
    (processPrimer g p).name = p.name := by
  simp only [processPrimer]
  split
  · exact processInner_name g p _
  · exact processSimple_name g p

lemma processPrimer_seq (g : List Char) (p : Primer) :
    (processPrimer g p).seq = p.seq := by
  simp only [processPrimer]
  split
  · exact processInner_seq g p _
  · exact processSimple_seq g p

lemma processInner_idem (g : List Char) (p : Primer) (b : Bool) :
    processInner g (processInner g p b) b = processInner g p b := by
  rcases hs : splitInnerPrimer p.seq g b with _ | sp <;>
    simp only [processInner, hs]

lemma processSimple_idem (g : List Char) (p : Primer) :
    processSimple g (processSimple g p) = processSimple g p := by
  rcases hf : strIndexOf g p.seq with _ | i
  · rcases hr : strIndexOf g (revcomp p.seq) with _ | j <;>
      simp only [processSimple, locateSimple, hf, hr]
  · simp only [processSimple, locateSimple, hf]

lemma processPrimer_idem (g : List Char) (p : Primer) :
    processPrimer g (processPrimer g p) = processPrimer g p := by
  by_cases hc : (decide (p.name.map upc = "FIP".toList)
      || decide (p.name.map upc = "BIP".toList)) = true
  · have h1 : processPrimer g p
        = processInner g p (decide (p.name.map upc = "FIP".toList)) := by
      simp only [processPrimer, hc, eq_self_iff_true, if_true]
    rw [h1]
    have h2 : processPrimer g (processInner g p (decide (p.name.map upc = "FIP".toList)))
        = processInner g (processInner g p (decide (p.name.map upc = "FIP".toList)))
            (decide (p.name.map upc = "FIP".toList)) := by
      simp only [processPrimer, processInner_name, hc, eq_self_iff_true, if_true]
    rw [h2, processInner_idem]
  · have hcf : (decide (p.name.map upc = "FIP".toList)
        || decide (p.name.map upc = "BIP".toList)) = false := by
      rwa [Bool.not_eq_true] at hc
    have h1 : processPrimer g p = processSimple g p := by
      simp only [processPrimer, hcf, Bool.false_eq_true, if_false]
    rw [h1]
    have h2 : processPrimer g (processSimple g p)
        = processSimple g (processSimple g p) := by
      simp only [processPrimer, processSimple_name, hcf, Bool.false_eq_true, if_false]
    rw [h2, processSimple_idem]

/-- Claim C9: the analysis pipeline is idempotent: running
`attachPrimerPositions` a second time on the same gene and the primer list
produced by the first run yields exactly the same primer fields and an
identical dimer record list. -/
theorem attachPrimerPositions_idempotent (gene : List Char) (primers : List Primer) :
    attachPrimerPositions gene (attachPrimerPositions gene primers).1
      = attachPrimerPositions gene primers := by
  simp only [attachPrimerPositions]
  have hmap : (primers.map (processPrimer (gene.map upc))).map (processPrimer (gene.map upc))
      = primers.map (processPrimer (gene.map upc)) := by
    rw [List.map_map]
    exact List.map_congr_left fun p _ => processPrimer_idem (gene.map upc) p
  rw [hmap]

end Lamp
